import Mathlib

/-!
Verification development for the hyperterse query gateway.

The Rust sources are shallowly embedded: statements are lists of
characters, `serde_json::Value` becomes the `Json` inductive, fallible
Rust functions return `Except`, and the process environment, the
third-party uuid / chrono parsers and the database drivers are passed in
as explicit function parameters.  Every definition mirrors one function
of the sources, named after it where possible.
-/

set_option maxRecDepth 4096

/-- Statements and all Rust `String` values are modelled as lists of
characters. -/
abbrev Str := List Char

namespace Hyperterse

/-! ## Basic string utilities mirroring Rust `str` operations -/

/-- `startsWith pat s` is true when `pat` is an initial segment of `s`
(Rust `str::starts_with` on the candidate position). -/
def startsWith : Str → Str → Bool
  | [], _ => true
  | _ :: _, [] => false
  | p :: ps, c :: cs => p == c && startsWith ps cs

/-- Fuel-driven worker for `replaceAll`; the fuel is an upper bound on the
number of scanning steps, always instantiated with the length of the
scanned string, which suffices because every step consumes at least one
character. -/
def replaceAllF (pat rep : Str) : Nat → Str → Str
  | _, [] => []
  | 0, s => s
  | fuel + 1, c :: rest =>
    if startsWith pat (c :: rest) then
      rep ++ replaceAllF pat rep fuel (List.drop (pat.length - 1) rest)
    else
      c :: replaceAllF pat rep fuel rest

/-- Rust `str::replace`: replace every non-overlapping occurrence of
`pat` (nonempty in all uses below) by `rep`, scanning left to right. -/
def replaceAll (pat rep s : Str) : Str :=
  replaceAllF pat rep s.length s

/-- Character-wise expansion; used to state escaping claims
independently of `replaceAll`. -/
def expandChars (f : Char → Str) : Str → Str
  | [] => []
  | c :: rest => f c ++ expandChars f rest

/-- Rust `slice::join` with a separator. -/
def joinSep (sep : Str) : List Str → Str
  | [] => []
  | [s] => s
  | s :: rest => s ++ sep ++ joinSep sep rest

/-- Membership of a character, mirroring Rust `str::contains(char)`. -/
def containsChar (s : Str) (c : Char) : Bool :=
  s.any (· == c)

/-! ## JSON values (`serde_json::Value`) -/

/-- Model of `serde_json::Number`: `int` covers the `I64`/`U64`
representations (so `is_i64() || is_u64()` holds exactly on `int`), and
`float` covers `F64`, carrying its decimal rendering abstractly. -/
inductive JNum where
  | int (v : Int)
  | float (rendering : Str)
deriving DecidableEq, Repr

/-- Model of `serde_json::Value`; objects are field lists in document
order. -/
inductive Json where
  | null
  | bool (b : Bool)
  | num (n : JNum)
  | str (s : Str)
  | arr (elems : List Json)
  | obj (fields : List (Str × Json))
deriving Repr

mutual

/-- Decidable equality of JSON values (the automatic derivation does not
handle the nested lists). -/
def Json.decEq : (a b : Json) → Decidable (a = b)
  | .null, .null => isTrue rfl
  | .null, .bool _ => isFalse (by intro h; cases h)
  | .null, .num _ => isFalse (by intro h; cases h)
  | .null, .str _ => isFalse (by intro h; cases h)
  | .null, .arr _ => isFalse (by intro h; cases h)
  | .null, .obj _ => isFalse (by intro h; cases h)
  | .bool _, .null => isFalse (by intro h; cases h)
  | .bool a, .bool b =>
      if h : a = b then isTrue (by rw [h])
      else isFalse (by intro hh; injection hh; exact h ‹_›)
  | .bool _, .num _ => isFalse (by intro h; cases h)
  | .bool _, .str _ => isFalse (by intro h; cases h)
  | .bool _, .arr _ => isFalse (by intro h; cases h)
  | .bool _, .obj _ => isFalse (by intro h; cases h)
  | .num _, .null => isFalse (by intro h; cases h)
  | .num _, .bool _ => isFalse (by intro h; cases h)
  | .num a, .num b =>
      if h : a = b then isTrue (by rw [h])
      else isFalse (by intro hh; injection hh; exact h ‹_›)
  | .num _, .str _ => isFalse (by intro h; cases h)
  | .num _, .arr _ => isFalse (by intro h; cases h)
  | .num _, .obj _ => isFalse (by intro h; cases h)
  | .str _, .null => isFalse (by intro h; cases h)
  | .str _, .bool _ => isFalse (by intro h; cases h)
  | .str _, .num _ => isFalse (by intro h; cases h)
  | .str a, .str b =>
      if h : a = b then isTrue (by rw [h])
      else isFalse (by intro hh; injection hh; exact h ‹_›)
  | .str _, .arr _ => isFalse (by intro h; cases h)
  | .str _, .obj _ => isFalse (by intro h; cases h)
  | .arr _, .null => isFalse (by intro h; cases h)
  | .arr _, .bool _ => isFalse (by intro h; cases h)
  | .arr _, .num _ => isFalse (by intro h; cases h)
  | .arr _, .str _ => isFalse (by intro h; cases h)
  | .arr a, .arr b =>
      match Json.decEqList a b with
      | isTrue h => isTrue (by rw [h])
      | isFalse h => isFalse (by intro hh; injection hh; exact h ‹_›)
  | .arr _, .obj _ => isFalse (by intro h; cases h)
  | .obj _, .null => isFalse (by intro h; cases h)
  | .obj _, .bool _ => isFalse (by intro h; cases h)
  | .obj _, .num _ => isFalse (by intro h; cases h)
  | .obj _, .str _ => isFalse (by intro h; cases h)
  | .obj _, .arr _ => isFalse (by intro h; cases h)
  | .obj a, .obj b =>
      match Json.decEqFields a b with
      | isTrue h => isTrue (by rw [h])
      | isFalse h => isFalse (by intro hh; injection hh; exact h ‹_›)

/-- Decidable equality of JSON value lists. -/
def Json.decEqList : (a b : List Json) → Decidable (a = b)
  | [], [] => isTrue rfl
  | [], _ :: _ => isFalse (by intro h; cases h)
  | _ :: _, [] => isFalse (by intro h; cases h)
  | x :: xs, y :: ys =>
      match Json.decEq x y with
      | isFalse h => isFalse (by intro hh; injection hh; exact h ‹_›)
      | isTrue h1 =>
        match Json.decEqList xs ys with
        | isTrue h2 => isTrue (by rw [h1, h2])
        | isFalse h2 => isFalse (by intro hh; injection hh; exact h2 ‹_›)

/-- Decidable equality of JSON object field lists. -/
def Json.decEqFields : (a b : List (Str × Json)) → Decidable (a = b)
  | [], [] => isTrue rfl
  | [], _ :: _ => isFalse (by intro h; cases h)
  | _ :: _, [] => isFalse (by intro h; cases h)
  | (k1, v1) :: xs, (k2, v2) :: ys =>
      if hk : k1 = k2 then
        match Json.decEq v1 v2 with
        | isFalse h => isFalse (by
            intro hh; injection hh with h1 h2
            exact h (congrArg Prod.snd h1))
        | isTrue hv =>
          match Json.decEqFields xs ys with
          | isTrue ht => isTrue (by rw [hk, hv, ht])
          | isFalse h => isFalse (by intro hh; injection hh; exact h ‹_›)
      else isFalse (by
        intro hh; injection hh with h1 h2
        exact hk (congrArg Prod.fst h1))

end

instance : DecidableEq Json := Json.decEq

/-- Rendering of a `serde_json::Number` by `Display`. -/
def JNum.render : JNum → Str
  | .int v => (toString v).data
  | .float r => r

/-- JSON string-body escaping as performed by `serde_json::to_string`:
quote and backslash get a backslash, control characters take their short
or `\u00XX` forms. -/
def jsonEscapeChar (c : Char) : Str :=
  if c == '\x22' then ['\\', '\x22']
  else if c == '\\' then ['\\', '\\']
  else if c == '\n' then ['\\', 'n']
  else if c == '\r' then ['\\', 'r']
  else if c == '\t' then ['\\', 't']
  else if c == '\x08' then ['\\', 'b']
  else if c == '\x0c' then ['\\', 'f']
  else if c.toNat < 32 then
    ['\\', 'u', '0', '0',
      (Nat.digitChar (c.toNat / 16)), (Nat.digitChar (c.toNat % 16))]
  else [c]

mutual

/-- Compact serialization of a JSON value, mirroring
`serde_json::to_string` (which cannot fail on these values). -/
def Json.serialize : Json → Str
  | .null => "null".data
  | .bool true => "true".data
  | .bool false => "false".data
  | .num n => n.render
  | .str s => '\x22' :: expandChars jsonEscapeChar s ++ ['\x22']
  | .arr elems => '[' :: Json.serializeList elems ++ [']']
  | .obj fields => '\x7b' :: Json.serializeFields fields ++ ['\x7d']

/-- Comma-joined serialization of array elements. -/
def Json.serializeList : List Json → Str
  | [] => []
  | [x] => x.serialize
  | x :: rest => x.serialize ++ [','] ++ Json.serializeList rest

/-- Comma-joined serialization of object fields. -/
def Json.serializeFields : List (Str × Json) → Str
  | [] => []
  | [(k, v)] => '\x22' :: expandChars jsonEscapeChar k ++ ['\x22', ':'] ++ v.serialize
  | (k, v) :: rest =>
      '\x22' :: expandChars jsonEscapeChar k ++ ['\x22', ':'] ++ v.serialize
        ++ [','] ++ Json.serializeFields rest

end

/-! ## Connector kinds and the error enum -/

/-- `hyperterse_types::Connector`. -/
inductive Connector where
  | postgres
  | mysql
  | redis
  | mongodb
deriving DecidableEq, Repr

/-- `hyperterse_core::HyperterseError` with each variant's payload. -/
inductive HError where
  | config (msg : Str)
  | validation (msg : Str)
  | database (msg : Str)
  | redis (msg : Str)
  | mongoDb (msg : Str)
  | queryExecution (msg : Str)
  | connector (msg : Str)
  | inputValidation (msg : Str)
  | template (msg : Str)
  | server (msg : Str)
  | io (msg : Str)
  | json (msg : Str)
  | queryNotFound (name : Str)
  | adapterNotFound (name : Str)
  | missingInput (name : Str)
  | invalidInputType (name expected : Str)
  | envVarNotFound (name : Str)
  | internal (msg : Str)
deriving DecidableEq, Repr

/-- The `thiserror`-derived `Display` rendering of each error variant. -/
def HError.display : HError → Str
  | .config m => "Configuration error: ".data ++ m
  | .validation m => "Validation error: ".data ++ m
  | .database m => "Database error: ".data ++ m
  | .redis m => "Redis error: ".data ++ m
  | .mongoDb m => "MongoDB error: ".data ++ m
  | .queryExecution m => "Query execution failed: ".data ++ m
  | .connector m => "Connector error: ".data ++ m
  | .inputValidation m => "Input validation error: ".data ++ m
  | .template m => "Template error: ".data ++ m
  | .server m => "Server error: ".data ++ m
  | .io m => "IO error: ".data ++ m
  | .json m => "JSON error: ".data ++ m
  | .queryNotFound n => "Query not found: ".data ++ n
  | .adapterNotFound n => "Adapter not found: ".data ++ n
  | .missingInput n => "Missing required input: ".data ++ n
  | .invalidInputType n t =>
      "Invalid input type for \x27".data ++ n ++ "\x27: expected ".data ++ t
  | .envVarNotFound n => "Environment variable not found: ".data ++ n
  | .internal m => "Internal error: ".data ++ m

/-- `HyperterseError::status_code`. -/
def HError.statusCode : HError → Nat
  | .queryNotFound _ | .adapterNotFound _ => 404
  | .validation _ | .inputValidation _ | .missingInput _
  | .invalidInputType _ _ => 400
  | .config _ | .template _ => 500
  | _ => 500

/-- `HyperterseError::sanitized_message`. -/
def HError.sanitizedMessage : HError → Str
  | .database _ | .redis _ | .mongoDb _ | .connector _ =>
      "Database connection error".data
  | .internal _ => "Internal server error".data
  | .queryNotFound n => "Query not found: ".data ++ n
  | .adapterNotFound n => "Adapter not found: ".data ++ n
  | .missingInput n => "Missing required input: ".data ++ n
  | .invalidInputType n t =>
      "Invalid input type for \x27".data ++ n ++ "\x27: expected ".data ++ t
  | .validation m => "Validation error: ".data ++ m
  | .inputValidation m => "Input validation error: ".data ++ m
  | e => e.display

/-! ## Escaping (`TemplateSubstitutor::escape_*`) -/

mutual

/-- `TemplateSubstitutor::escape_sql` (postgres, mysql).  The serde
serialization used in the object branch cannot fail on modelled values,
so the function is total here. -/
def escapeSql : Json → Str
  | .null => "NULL".data
  | .bool true => "TRUE".data
  | .bool false => "FALSE".data
  | .num n => n.render
  | .str s => '\x27' :: replaceAll ['\x27'] ['\x27', '\x27'] s ++ ['\x27']
  | .arr elems => '(' :: escapeSqlList elems ++ [')']
  | .obj fields =>
      let jsonStr := (Json.obj fields).serialize
      '\x27' :: replaceAll ['\x27'] ['\x27', '\x27'] jsonStr ++ ['\x27']

/-- The `", "`-joined recursive escaping of array elements inside
`escape_sql`. -/
def escapeSqlList : List Json → Str
  | [] => []
  | [x] => escapeSql x
  | x :: rest => escapeSql x ++ ", ".data ++ escapeSqlList rest

end

/-- `TemplateSubstitutor::escape_redis`. -/
def escapeRedis : Json → Str
  | .null => []
  | .bool true => "1".data
  | .bool false => "0".data
  | .num n => n.render
  | .str s =>
      if containsChar s ' ' || containsChar s '\x22' || containsChar s '\x27' then
        let escaped := replaceAll ['\x22'] ['\\', '\x22']
          (replaceAll ['\\'] ['\\', '\\'] s)
        '\x22' :: escaped ++ ['\x22']
      else s
  | .arr elems =>
      let jsonStr := (Json.arr elems).serialize
      '\x22' :: replaceAll ['\x22'] ['\\', '\x22'] jsonStr ++ ['\x22']
  | .obj fields =>
      let jsonStr := (Json.obj fields).serialize
      '\x22' :: replaceAll ['\x22'] ['\\', '\x22'] jsonStr ++ ['\x22']

/-- `TemplateSubstitutor::escape_mongodb`: the JSON serialization of the
value. -/
def escapeMongodb (v : Json) : Str :=
  v.serialize

/-- `TemplateSubstitutor::escape_value`: dialect dispatch. -/
def escapeValue (conn : Connector) (v : Json) : Str :=
  match conn with
  | .postgres | .mysql => escapeSql v
  | .redis => escapeRedis v
  | .mongodb => escapeMongodb v

/-- Decidable equality for `Except` results. -/
instance {e a : Type} [DecidableEq e] [DecidableEq a] : DecidableEq (Except e a)
  | .ok x, .ok y =>
    if h : x = y then isTrue (by rw [h])
    else isFalse (by intro hh; injection hh; exact h ‹_›)
  | .ok _, .error _ => isFalse (by intro h; cases h)
  | .error _, .ok _ => isFalse (by intro h; cases h)
  | .error x, .error y =>
    if h : x = y then isTrue (by rw [h])
    else isFalse (by intro hh; injection hh; exact h ‹_›)

/-! ## Placeholder matching

The Rust sources locate placeholders with the regular expressions
`\{\{\s*inputs\.([A-Za-z_][A-Za-z0-9_]*)\s*\}\}` (`INPUT_PATTERN`) and
`\{\{\s*env\.([A-Za-z_][A-Za-z0-9_]*)\s*\}\}` (`ENV_PATTERN`).  Both are
deterministic: at a given start position a match either succeeds by
greedy scanning or fails, so `captures_iter` is modelled by a
left-to-right scan that, on success, resumes after the match. -/

/-- The `\s` character class (ASCII part, the only part the embedding
needs). -/
def isWs (c : Char) : Bool :=
  c == ' ' || c == '\t' || c == '\n' || c == '\r' || c == '\x0b' || c == '\x0c'

/-- `[A-Za-z_]`, the first character of a placeholder identifier. -/
def isIdentStart (c : Char) : Bool :=
  c.isAlpha || c == '_'

/-- `[A-Za-z0-9_]`, the remaining characters of a placeholder
identifier. -/
def isIdentChar (c : Char) : Bool :=
  c.isAlpha || c.isDigit || c == '_'

/-- Split off the longest whitespace run (`\s*`). -/
def spanWs : Str → Str × Str
  | [] => ([], [])
  | c :: rest =>
    if isWs c then
      let r := spanWs rest
      (c :: r.1, r.2)
    else ([], c :: rest)

/-- Split off the longest run of identifier characters. -/
def spanIdent : Str → Str × Str
  | [] => ([], [])
  | c :: rest =>
    if isIdentChar c then
      let r := spanIdent rest
      (c :: r.1, r.2)
    else ([], c :: rest)

/-- Match a literal string, returning the remainder on success. -/
def matchLit : Str → Str → Option Str
  | [], s => some s
  | _ :: _, [] => none
  | p :: ps, c :: cs => if p == c then matchLit ps cs else none

/-- Try to match `{{` `\s*` `tag` ident `\s*` `}}` at the head of `l`.
On success, return the full matched text, the captured identifier and
the remainder of the input. -/
def matchPhAt (tag : Str) (l : Str) : Option (Str × Str × Str) :=
  match l with
  | '\x7b' :: '\x7b' :: r1 =>
    let s1 := spanWs r1
    match matchLit tag s1.2 with
    | none => none
    | some r2 =>
      match r2 with
      | [] => none
      | c :: r3 =>
        if isIdentStart c then
          let s2 := spanIdent r3
          let ident := c :: s2.1
          let s3 := spanWs s2.2
          match s3.2 with
          | '\x7d' :: '\x7d' :: r4 =>
            some ('\x7b' :: '\x7b' :: s1.1 ++ tag ++ ident ++ s3.1 ++ ['\x7d', '\x7d'],
                  ident, r4)
          | _ => none
        else none
  | _ => none

/-- Fuel-driven scan for successive non-overlapping placeholder matches
(`Regex::captures_iter`); each step consumes at least one character, so
fuel equal to the input length always suffices. -/
def scanPhF (tag : Str) : Nat → Str → List (Str × Str)
  | _, [] => []
  | 0, _ => []
  | fuel + 1, c :: rest =>
    match matchPhAt tag (c :: rest) with
    | some (full, ident, r) => (full, ident) :: scanPhF tag fuel r
    | none => scanPhF tag fuel rest

/-- All matches of a placeholder pattern in a statement, in order, as
(full match, captured identifier) pairs. -/
def scanPh (tag : Str) (s : Str) : List (Str × Str) :=
  scanPhF tag s.length s

/-- The literal tag of `ENV_PATTERN`. -/
def envTag : Str := "env.".data

/-- The literal tag of `INPUT_PATTERN`. -/
def inputsTag : Str := "inputs.".data

/-! ## Template substitution (`runtime/executor/substitutor.rs`) -/

/-- Input maps (`HashMap<String, serde_json::Value>`) as association
lists; `lookupMap` is `HashMap::get`. -/
abbrev InputMap := List (Str × Json)

/-- `HashMap::get` on the association-list model. -/
def lookupMap : InputMap → Str → Option Json
  | [], _ => none
  | (k, v) :: rest, key => if k == key then some v else lookupMap rest key

/-- `HashMap::insert` on the association-list model: replace the
binding if the key exists, else append. -/
def insertMap : InputMap → Str → Json → InputMap
  | [], key, v => [(key, v)]
  | (k, w) :: rest, key, v =>
    if k == key then (k, v) :: rest else (k, w) :: insertMap rest key v

/-- The loop body of `TemplateSubstitutor::substitute_env_vars`:
matches were collected on the original statement; each one is resolved
(erroring immediately on a missing variable, the `?` in the source) and
all occurrences of its full text are replaced in the accumulator. -/
def substEnvGo (env : Str → Option Str) : List (Str × Str) → Str → Except HError Str
  | [], acc => .ok acc
  | (full, name) :: rest, acc =>
    match env name with
    | none => .error (.envVarNotFound name)
    | some v => substEnvGo env rest (replaceAll full v acc)

/-- `TemplateSubstitutor::substitute_env_vars`; the process environment
is the `env` parameter. -/
def substituteEnvVars (env : Str → Option Str) (statement : Str) : Except HError Str :=
  substEnvGo env (scanPh envTag statement) statement

/-- The loop body of `TemplateSubstitutor::substitute_inputs`: each
match of `INPUT_PATTERN` on the original statement is looked up
(`MissingInput` on absence), escaped for the connector, and all
occurrences of its full text are replaced in the accumulator. -/
def substInputsGo (inputs : InputMap) (conn : Connector) :
    List (Str × Str) → Str → Except HError Str
  | [], acc => .ok acc
  | (full, name) :: rest, acc =>
    match lookupMap inputs name with
    | none => .error (.missingInput name)
    | some v => substInputsGo inputs conn rest (replaceAll full (escapeValue conn v) acc)

/-- `TemplateSubstitutor::substitute_inputs`.  Note: the source scans
with `INPUT_PATTERN` only; the declared `QUOTED_INPUT_PATTERN` is never
consulted. -/
def substituteInputs (statement : Str) (inputs : InputMap) (conn : Connector) :
    Except HError Str :=
  substInputsGo inputs conn (scanPh inputsTag statement) statement

/-- `TemplateSubstitutor::substitute`: environment phase, then input
phase on its result. -/
def substitute (env : Str → Option Str) (statement : Str) (inputs : InputMap)
    (conn : Connector) : Except HError Str := do
  let r1 ← substituteEnvVars env statement
  substituteInputs r1 inputs conn

/-! ## Config-load environment substitution (`parser/env.rs`) -/

/-- The loop body of `EnvSubstitutor::substitute`: thread the partially
substituted content and the accumulated missing-variable names. -/
def envSubstStep (env : Str → Option Str) (strict : Bool)
    (acc : Str × List Str) (m : Str × Str) : Str × List Str :=
  match env m.2 with
  | some v => (replaceAll m.1 v acc.1, acc.2)
  | none => (acc.1, if strict then acc.2 ++ [m.2] else acc.2)

/-- `EnvSubstitutor::substitute`: collect every `ENV_PATTERN` match of
the original content, resolve each in turn (missing variables are
recorded in strict mode and skipped in lenient mode), and fail at the
end with the comma-joined missing names if any were recorded. -/
def envSubstitute (env : Str → Option Str) (strict : Bool) (content : Str) :
    Except HError Str :=
  let r := (scanPh envTag content).foldl (envSubstStep env strict) (content, [])
  if r.2.isEmpty then .ok r.1 else .error (.envVarNotFound (joinSep ", ".data r.2))

/-! ## Primitive types and input validation
(`types/primitive.rs`, `runtime/executor/validator.rs`)

The third-party parsers invoked by `Primitive::validate`
(`uuid::Uuid::parse_str`, `chrono::DateTime::parse_from_rfc3339`,
`chrono::NaiveDateTime::parse_from_str` with `%Y-%m-%d %H:%M:%S`) are
not code of this repository; they enter the embedding as the boolean
parameters `uuidOk`, `rfcOk` and `naiveOk`. -/

/-- `hyperterse_types::Primitive`. -/
inductive Primitive where
  | string
  | int
  | float
  | boolean
  | uuid
  | datetime
deriving DecidableEq, Repr

/-- The `Display` rendering of a primitive type. -/
def Primitive.display : Primitive → Str
  | .string => "string".data
  | .int => "int".data
  | .float => "float".data
  | .boolean => "boolean".data
  | .uuid => "uuid".data
  | .datetime => "datetime".data

/-- `serde_json::Value::as_str`. -/
def Json.asStr : Json → Option Str
  | .str s => some s
  | _ => none

/-- `Primitive::validate`: `string` accepts JSON strings; `int` accepts
`is_i64() || is_u64()` numbers (everything but floats); `float` accepts
any number; `boolean` accepts booleans; `uuid` and `datetime` accept
strings the third-party parsers accept. -/
def Primitive.validate (uuidOk rfcOk naiveOk : Str → Bool) :
    Primitive → Json → Bool
  | .string, v => match v with | .str _ => true | _ => false
  | .int, v => match v with | .num (.int _) => true | _ => false
  | .float, v => match v with | .num _ => true | _ => false
  | .boolean, v => match v with | .bool _ => true | _ => false
  | .uuid, v => ((v.asStr).map uuidOk).getD false
  | .datetime, v => ((v.asStr).map (fun s => rfcOk s || naiveOk s)).getD false

/-- `hyperterse_core::Input` (query input declaration). -/
structure Input where
  name : Str
  primitiveType : Primitive
  required : Bool
  default : Option Json
deriving DecidableEq, Repr

/-- `hyperterse_core::Query`. -/
structure Query where
  name : Str
  adapter : Str
  statement : Str
  inputs : List Input
deriving DecidableEq, Repr

/-- The loop of `InputValidator::validate`, threading the (mutable in
Rust) input map through the declared inputs. -/
def validateGo (uuidOk rfcOk naiveOk : Str → Bool) :
    List Input → InputMap → Except HError InputMap
  | [], acc => .ok acc
  | d :: rest, acc =>
    match lookupMap acc d.name with
    | some v =>
      if d.primitiveType.validate uuidOk rfcOk naiveOk v then
        validateGo uuidOk rfcOk naiveOk rest acc
      else
        .error (.invalidInputType d.name d.primitiveType.display)
    | none =>
      if d.required then
        .error (.missingInput d.name)
      else
        match d.default with
        | some dv => validateGo uuidOk rfcOk naiveOk rest (insertMap acc d.name dv)
        | none => validateGo uuidOk rfcOk naiveOk rest acc

/-- `InputValidator::validate`: returns the caller's inputs with
defaults applied for absent optional inputs, or the first failure in
declaration order. -/
def validateInputs (uuidOk rfcOk naiveOk : Str → Bool) (q : Query)
    (inputs : InputMap) : Except HError InputMap :=
  validateGo uuidOk rfcOk naiveOk q.inputs inputs

/-! ## Configuration model (`core/domain/model.rs`, `types.rs`,
`adapter.rs`) -/

/-- `hyperterse_core::Adapter`. -/
structure Adapter where
  name : Str
  connector : Connector
  url : Str
deriving DecidableEq, Repr

/-- `hyperterse_core::ServerConfig` (the pool options play no role in
the claims and are omitted from the record). -/
structure ServerConfig where
  port : Option Str
  logLevel : Option Nat
deriving DecidableEq, Repr

/-- `hyperterse_core::Model` (the export section plays no role in the
claims and is omitted). -/
structure Model where
  name : Str
  adapters : List Adapter
  queries : List Query
  server : Option ServerConfig
deriving DecidableEq, Repr

/-- `Model::find_adapter`. -/
def Model.findAdapter (m : Model) (name : Str) : Option Adapter :=
  m.adapters.find? (fun a => a.name == name)

/-- `Model.find_query`. -/
def Model.findQuery (m : Model) (name : Str) : Option Query :=
  m.queries.find? (fun q => q.name == name)

/-- Digit accumulation for the decimal parse. -/
def digitsVal (s : Str) : Nat :=
  s.foldl (fun acc c => acc * 10 + (c.toNat - '0'.toNat)) 0

/-- Rust `str::parse::<u16>()` as an `Option`: an optional leading `+`
followed by at least one ASCII digit; a `-` sign is rejected outright
(`from_str_radix` takes its negative branch only for signed types, so
for `u16` the `-` is an invalid digit); values above `u16::MAX`
overflow to an error. -/
def parseU16 (s : Str) : Option Nat :=
  match s with
  | [] => none
  | _ =>
    let digits : Str :=
      match s with
      | '+' :: r => r
      | _ => s
    if digits.isEmpty then none
    else if digits.all Char.isDigit then
      let v := digitsVal digits
      if v ≤ 65535 then some v else none
    else none

/-- `Model::port`: `self.server.as_ref().and_then(|s|
s.port.as_ref()).and_then(|p| p.parse().ok()).unwrap_or(8080)`. -/
def Model.port (m : Model) : Nat :=
  (((m.server.bind (fun s => s.port)).bind parseU16)).getD 8080

/-! ## Query executor (`runtime/executor/mod.rs`)

The connector registry reached through `ConnectorManager::get` is the
`connectors` parameter: `none` models an absent adapter, and a present
connector is its `execute` function (statement and validated params to
rows), the backend itself being external. -/

/-- A result row (`HashMap<String, serde_json::Value>`). -/
abbrev Row := List (Str × Json)

/-- A connector's `execute` behaviour. -/
abbrev ConnExec := Str → InputMap → Except HError (List Row)

/-- `QueryExecutor::execute`: query lookup, input validation, connector
lookup, adapter lookup, substitution, dispatch — in the order of the
source. -/
def executorExecute (env : Str → Option Str) (uuidOk rfcOk naiveOk : Str → Bool)
    (model : Model) (connectors : Str → Option ConnExec)
    (queryName : Str) (inputs : InputMap) : Except HError (List Row) :=
  match model.findQuery queryName with
  | none => .error (.queryNotFound queryName)
  | some q =>
    match validateInputs uuidOk rfcOk naiveOk q inputs with
    | .error e => .error e
    | .ok validated =>
      match connectors q.adapter with
      | none => .error (.adapterNotFound q.adapter)
      | some exec =>
        match model.findAdapter q.adapter with
        | none => .error (.adapterNotFound q.adapter)
        | some adapter =>
          match substitute env q.statement validated adapter.connector with
          | .error e => .error e
          | .ok stmt => exec stmt validated

/-! ## HTTP query handler (`runtime/handlers/query.rs`,
`types/runtime.rs`) -/

/-- `hyperterse_types::runtime::QueryResponse`. -/
structure QueryResponse where
  success : Bool
  error : Str
  results : List Row
deriving DecidableEq, Repr

/-- `QueryResponse::success`. -/
def QueryResponse.ok (results : List Row) : QueryResponse :=
  ⟨true, [], results⟩

/-- `QueryResponse::error`. -/
def QueryResponse.err (message : Str) : QueryResponse :=
  ⟨false, message, []⟩

/-- `QueryHandler::execute` after the executor has produced its
outcome: the HTTP status is derived from `status_code` (404 and 400 map
to themselves, everything else to 500) and the body carries the
sanitized message on failure. -/
def queryHandlerRespond (outcome : Except HError (List Row)) : Nat × QueryResponse :=
  match outcome with
  | .ok results => (200, QueryResponse.ok results)
  | .error e =>
    let status := if e.statusCode == 404 then 404
      else if e.statusCode == 400 then 400
      else 500
    (status, QueryResponse.err e.sanitizedMessage)

/-! ## MCP transport (`runtime/handlers/mcp.rs`, `types/runtime.rs`) -/

/-- `hyperterse_types::runtime::McpError`. -/
structure McpError where
  code : Int
  message : Str
  data : Option Json
deriving DecidableEq, Repr

/-- `hyperterse_types::runtime::McpResponse`. -/
structure McpResponse where
  jsonrpc : Str
  id : Json
  result : Option Json
  error : Option McpError
deriving DecidableEq, Repr

/-- `McpResponse::success`. -/
def McpResponse.ok (id : Json) (result : Json) : McpResponse :=
  ⟨"2.0".data, id, some result, none⟩

/-- `McpResponse::error`. -/
def McpResponse.err (id : Json) (code : Int) (message : Str) : McpResponse :=
  ⟨"2.0".data, id, none, some ⟨code, message, none⟩⟩

/-- `serde_json::Value::get` on an object. -/
def Json.getField : Json → Str → Option Json
  | .obj fields, key => lookupMap fields key
  | _, _ => none

/-- The `arguments` extraction of `McpHandler::handle_tools_call`:
`arguments.and_then(as_object)` collected into the input map, empty when
absent or not an object. -/
def mcpArguments (params : Json) : InputMap :=
  match params.getField "arguments".data with
  | some (.obj fields) => fields
  | _ => []

/-- `McpHandler::handle_tools_call`.  `params.get("name")` and
`params.get("arguments")` are read from the request params; the
pretty-printer used on success (`serde_json::to_string_pretty`) is the
`pretty` parameter; the executor behaviour is the `exec` parameter. -/
def handleToolsCall (exec : Str → InputMap → Except HError (List Row))
    (pretty : List Row → Str) (id : Json) (params : Json) : McpResponse :=
  match (params.getField "name".data).bind Json.asStr with
  | none => McpResponse.err id (-32602) "Missing tool name".data
  | some toolName =>
    match exec toolName (mcpArguments params) with
    | .ok results =>
      McpResponse.ok id (.obj [("content".data,
        .arr [.obj [("type".data, .str "text".data),
                    ("text".data, .str (pretty results))]])])
    | .error e =>
      McpResponse.ok id (.obj [
        ("content".data, .arr [.obj [("type".data, .str "text".data),
          ("text".data, .str ("Error: ".data ++ e.sanitizedMessage))]]),
        ("isError".data, .bool true)])

/-! ## Connector manager (`runtime/connectors/manager.rs`)

`initialize` spawns one construction task per adapter and inserts each
joined result into the shared map under a write lock, propagating the
first joined failure with `??` — which exits the collection loop while
the already-inserted connectors stay in the map.  The embedding fixes
the nondeterministic join order to the adapter list order (one
admissible schedule) and threads the map explicitly. -/

/-- A connector registry (the manager's `HashMap<String, Arc<dyn
Connector>>`), with the connector modelled by its `execute`
behaviour. -/
abbrev ConnMap := List (Str × ConnExec)

/-- Registry lookup without the error wrapping. -/
def connFind : ConnMap → Str → Option ConnExec
  | [], _ => none
  | (k, v) :: rest, key => if k == key then some v else connFind rest key

/-- Registry insert (`HashMap::insert`). -/
def connInsert : ConnMap → Str → ConnExec → ConnMap
  | [], key, v => [(key, v)]
  | (k, w) :: rest, key, v =>
    if k == key then (k, v) :: rest else (k, w) :: connInsert rest key v

/-- The result-collection loop of `ConnectorManager::initialize`: on the
first failed construction the loop stops and the error is returned, but
the map keeps every connector inserted before it. -/
def initializeGo (create : Adapter → Except HError ConnExec) :
    List Adapter → ConnMap → ConnMap × Option HError
  | [], m => (m, none)
  | a :: rest, m =>
    match create a with
    | .error e => (m, some e)
    | .ok c => initializeGo create rest (connInsert m a.name c)

/-- `ConnectorManager::initialize` on an explicit map state, returning
the state after the call and the propagated failure, if any. -/
def managerInitialize (create : Adapter → Except HError ConnExec)
    (adapters : List Adapter) (m : ConnMap) : ConnMap × Option HError :=
  initializeGo create adapters m

/-- `ConnectorManager::get`. -/
def managerGet (m : ConnMap) (name : Str) : Except HError ConnExec :=
  match connFind m name with
  | some c => .ok c
  | none => .error (.adapterNotFound name)

/-! ## MongoDB connector (`runtime/connectors/mongodb.rs`)

`MongoDbConnector::execute` deserializes the statement text into the
structured `MongoStatement` (serde); the embedding starts from the
parsed JSON value, the text-level JSON parser being external.  Only the
fields a claim touches are carried (`document`, `documents`, `update`,
`pipeline` and `options` are omitted; all are optional and play no part
in parsing success for the claims below). -/

/-- `MongoStatement` (the deserialization target): `collection` and
`operation` are required `String` fields, `database` is optional. -/
structure MongoStatement where
  database : Option Str
  collection : Str
  operation : Str
  filter : Option Json
deriving DecidableEq, Repr

/-- Serde's handling of an `Option<String>` field: absent is `none`, a
JSON string is `some`, any other value is a type error. -/
def getOptStrField (fields : List (Str × Json)) (key : Str) : Except Str (Option Str) :=
  match lookupMap fields key with
  | none => .ok none
  | some (.str s) => .ok (some s)
  | some _ => .error ("invalid type for field ".data ++ key)

/-- Serde's handling of a required `String` field: absence is a
`missing field` error. -/
def getStrField (fields : List (Str × Json)) (key : Str) : Except Str Str :=
  match lookupMap fields key with
  | none => .error ("missing field ".data ++ key)
  | some (.str s) => .ok s
  | some _ => .error ("invalid type for field ".data ++ key)

/-- Deserialization of a `MongoStatement` from a JSON document (derived
serde impl: unknown fields ignored, `Option` fields default to absent,
required fields reported missing in declaration order). -/
def parseMongoStatement (j : Json) : Except Str MongoStatement :=
  match j with
  | .obj fields => do
    let database ← getOptStrField fields "database".data
    let collection ← getStrField fields "collection".data
    let operation ← getStrField fields "operation".data
    let filter := lookupMap fields "filter".data
    .ok ⟨database, collection, operation, filter⟩
  | _ => .error "expected a JSON object".data

/-- `MongoDbConnector::get_database`: the statement-level name takes
priority over the connection's default database; neither present is an
error. -/
def getDatabase (defaultDb : Option Str) (name : Option Str) : Except HError Str :=
  match (match name with | some n => some n | none => defaultDb) with
  | some dbName => .ok dbName
  | none => .error (.mongoDb
      "No database specified and no default database in connection string".data)

section MongoFind

variable {Bson : Type}

/-- `MongoDbConnector::document_to_map`: convert each field of a BSON
document through `bson_to_json` (the `bsonToJson` parameter — BSON and
its conversion are driver territory). -/
def documentToMap (bsonToJson : Bson → Json) (doc : List (Str × Bson)) : Row :=
  doc.map (fun kv => (kv.1, bsonToJson kv.2))

/-- The result loop of the `find` arm of
`MongoDbConnector::execute_operation`: one result row pushed per
document yielded by the driver's cursor. -/
def mongoFindRows (bsonToJson : Bson → Json) (docs : List (List (Str × Bson))) :
    List Row :=
  docs.map (documentToMap bsonToJson)

end MongoFind

/-! ## Concrete configuration artifacts used by the claim theorems -/

/-- The missing-variable occurrences of a document under an
environment: the captured names of the `ENV_PATTERN` matches whose
variable is undefined, in match order (the names
`EnvSubstitutor::substitute` collects in strict mode). -/
def envMissing (env : Str → Option Str) (content : Str) : List Str :=
  ((scanPh envTag content).filter (fun m => (env m.2).isNone)).map (fun m => m.2)

/-- The `list` query of the spec's seed scenarios B/C: one optional int
input `limit` with default 10. -/
def listQuery : Query :=
  ⟨"list".data, "db".data,
    "SELECT * FROM users LIMIT \x7b\x7b inputs.limit \x7d\x7d".data,
    [⟨"limit".data, .int, false, some (.num (.int 10))⟩]⟩

/-- A model holding `listQuery` on a postgres adapter named `db`. -/
def listModel : Model :=
  ⟨"demo".data,
    [⟨"db".data, .postgres, "postgres://localhost/demo".data⟩],
    [listQuery], none⟩

/-- A model with no queries at all (every tool name is unknown). -/
def emptyModel : Model := ⟨"empty".data, [], [], none⟩

/-- A trivially succeeding connector behaviour. -/
def okExec : ConnExec := fun _ _ => .ok []

/-- A connector constructor that succeeds on the adapter named `good`
and fails on every other adapter. -/
def createDemo : Adapter → Except HError ConnExec := fun a =>
  if a.name == "good".data then .ok okExec else .error (.connector "boom".data)

/-- The adapter whose construction succeeds. -/
def goodAdapter : Adapter := ⟨"good".data, .postgres, "postgres://one".data⟩

/-- The adapter whose construction fails. -/
def badAdapter : Adapter := ⟨"bad".data, .mysql, "mysql://two".data⟩

/-- The native-command document of the claim about the MongoDB
connector: `{"database":"shop","find":"orders","filter":{"status":"paid"}}`. -/
def nativeFindDoc : Json :=
  .obj [("database".data, .str "shop".data),
        ("find".data, .str "orders".data),
        ("filter".data, .obj [("status".data, .str "paid".data)])]

/-- The structured statement the source actually accepts:
`{"database":"shop","collection":"orders","operation":"find","filter":{"status":"paid"}}`. -/
def structuredFindDoc : Json :=
  .obj [("database".data, .str "shop".data),
        ("collection".data, .str "orders".data),
        ("operation".data, .str "find".data),
        ("filter".data, .obj [("status".data, .str "paid".data)])]

/-- The executor behaviour over the empty model with no connectors:
every tool name is unknown. -/
def execDemo : Str → InputMap → Except HError (List Row) :=
  executorExecute (fun _ => none) (fun _ => false) (fun _ => false) (fun _ => false)
    emptyModel (fun _ => none)

/-- MCP `tools/call` params naming an unknown tool. -/
def unknownToolParams : Json := .obj [("name".data, .str "nope".data)]

/-- A two-input query for the validator witness: required int `id`,
optional int `limit` with default 10. -/
def wQuery : Query :=
  ⟨"q".data, "db".data, "SELECT 1".data,
    [⟨"id".data, .int, true, none⟩,
     ⟨"limit".data, .int, false, some (.num (.int 10))⟩]⟩

/-- Caller inputs supplying only `id`. -/
def wInputs : InputMap := [("id".data, .num (.int 42))]

/-! ## Helper lemmas -/

/-- For a single-character pattern, `replaceAllF` with sufficient fuel
is character-wise expansion. -/
theorem replaceAllF_single (q : Char) (rep : Str) :
    ∀ (fuel : Nat) (s : Str), s.length ≤ fuel →
      replaceAllF [q] rep fuel s
        = expandChars (fun c => if c = q then rep else [c]) s := by
  intro fuel
  induction fuel with
  | zero =>
    intro s hs
    cases s with
    | nil => rfl
    | cons c rest => simp at hs
  | succ n ih =>
    intro s hs
    cases s with
    | nil => rfl
    | cons c rest =>
      have hlen : rest.length ≤ n := by
        simpa [Nat.succ_le_succ_iff] using hs
      by_cases hqc : q = c
      · subst hqc
        simp [replaceAllF, startsWith, expandChars, ih rest hlen]
      · have hne : (q == c) = false := beq_false_of_ne hqc
        have hne' : ¬ c = q := fun h => hqc h.symm
        simp [replaceAllF, startsWith, hne, expandChars, hne', ih rest hlen]

/-- `str::replace` with a single-character pattern expands each
occurrence of that character in place. -/
theorem replaceAll_single (q : Char) (rep : Str) (s : Str) :
    replaceAll [q] rep s = expandChars (fun c => if c = q then rep else [c]) s :=
  replaceAllF_single q rep s.length s (Nat.le_refl _)

/-- `expandChars` distributes over concatenation. -/
theorem expandChars_append (f : Char → Str) (a b : Str) :
    expandChars f (a ++ b) = expandChars f a ++ expandChars f b := by
  induction a with
  | nil => rfl
  | cons c rest ih => simp [expandChars, ih]

/-- Two successive expansions compose character-wise. -/
theorem expandChars_comp (f g : Char → Str) (s : Str) :
    expandChars g (expandChars f s)
      = expandChars (fun c => expandChars g (f c)) s := by
  induction s with
  | nil => rfl
  | cons c rest ih => simp [expandChars, expandChars_append, ih]

/-- Pointwise equal expanders produce equal expansions. -/
theorem expandChars_congr (f g : Char → Str) (h : ∀ c, f c = g c) (s : Str) :
    expandChars f s = expandChars g s := by
  induction s with
  | nil => rfl
  | cons c rest ih => simp [expandChars, h, ih]

/-! ## Claim theorems -/

/-- Claim C1: for every JSON string value substituted for a postgres or
mysql connector, the produced literal is exactly a single quote, the
string with every single-quote character doubled, and a closing single
quote; substituting `'; DROP TABLE users; --` for `name` in the lookup
statement yields exactly the escaped statement. -/
theorem sql_string_escape_exact :
    (∀ s : Str, escapeSql (.str s)
        = '\x27' :: expandChars (fun c => if c = '\x27' then ['\x27', '\x27'] else [c]) s
          ++ ['\x27'])
    ∧ (∀ v : Json, escapeValue .postgres v = escapeSql v ∧ escapeValue .mysql v = escapeSql v)
    ∧ substitute (fun _ => none)
        "SELECT * FROM users WHERE name = \x7b\x7b inputs.name \x7d\x7d".data
        [("name".data, Json.str "\x27; DROP TABLE users; --".data)] .postgres
      = .ok "SELECT * FROM users WHERE name = \x27\x27\x27; DROP TABLE users; --\x27".data := by
  refine ⟨?_, ?_, by decide⟩
  · intro s
    simp [escapeSql, replaceAll_single]
  · intro v
    exact ⟨rfl, rfl⟩

/-- Claim C2, evaluated on the code: substituting the string `paid`
into the quoted MongoDB placeholder `"{{ inputs.s }}"` leaves the
template's surrounding quotes in place and produces the doubly-quoted
fragment `""paid""`, because `substitute_inputs` scans with
`INPUT_PATTERN` only and never consults the declared
`QUOTED_INPUT_PATTERN`. -/
theorem mongodb_quoted_placeholder_double_quoting :
    substituteInputs "\x7b\x22status\x22: \x22\x7b\x7b inputs.s \x7d\x7d\x22\x7d".data
      [("s".data, Json.str "paid".data)] .mongodb
    = .ok "\x7b\x22status\x22: \x22\x22paid\x22\x22\x7d".data := by
  decide

/-- Claim C8, evaluated on the code: the string `a<TAB>b` contains
whitespace, yet `escape_redis` passes it through unquoted (so the
produced token does not begin with a double quote) — the source tests
`s.contains(' ')`, the space character only, not the whitespace
class. -/
theorem redis_whitespace_not_quoted :
    isWs '	' = true
    ∧ escapeRedis (.str ['a', '	', 'b']) = ['a', '	', 'b']
    ∧ List.head? (escapeRedis (.str ['a', '	', 'b'])) ≠ some '"' := by
  exact ⟨rfl, by decide, by decide⟩

/-- Claim C8 as amended: a redis string containing a space character, a
double quote or a single quote becomes a double-quoted token with
backslash and double quote backslash-escaped; a string without any of
those three characters — even one containing other whitespace such as a
tab — passes through unchanged; null becomes the empty string and
booleans become 1/0. -/
theorem redis_string_escaping :
    (∀ s : Str,
      (containsChar s ' ' || containsChar s '\x22' || containsChar s '\x27') = true →
        escapeRedis (.str s)
          = '\x22' :: expandChars
              (fun c => if c = '\\' then ['\\', '\\']
                else if c = '\x22' then ['\\', '\x22'] else [c]) s
            ++ ['\x22'])
    ∧ (∀ s : Str,
      (containsChar s ' ' || containsChar s '\x22' || containsChar s '\x27') = false →
        escapeRedis (.str s) = s)
    ∧ escapeRedis .null = []
    ∧ escapeRedis (.bool true) = ['1']
    ∧ escapeRedis (.bool false) = ['0'] := by
  refine ⟨?_, ?_, rfl, rfl, rfl⟩
  · intro s hs
    have hmid : replaceAll ['\x22'] ['\\', '\x22'] (replaceAll ['\\'] ['\\', '\\'] s)
        = expandChars
            (fun c => if c = '\\' then ['\\', '\\']
              else if c = '\x22' then ['\\', '\x22'] else [c]) s := by
      rw [replaceAll_single, replaceAll_single, expandChars_comp]
      apply expandChars_congr
      intro c
      by_cases h1 : c = '\\'
      · simp [h1, expandChars]
      · by_cases h2 : c = '\x22'
        · simp [h1, h2, expandChars]
        · simp [h1, h2, expandChars]
    simp [escapeRedis, hs, hmid]
  · intro s hs
    simp [escapeRedis, hs]

/-- Witness for claim C8: `a b` (contains a space) is double-quoted,
`ab` passes through unchanged. -/
theorem redis_string_escaping_witness :
    ((containsChar "a b".data ' ' || containsChar "a b".data '\x22'
        || containsChar "a b".data '\x27') = true
      ∧ escapeRedis (.str "a b".data)
          = '\x22' :: expandChars
              (fun c => if c = '\\' then ['\\', '\\']
                else if c = '\x22' then ['\\', '\x22'] else [c]) "a b".data
            ++ ['\x22'])
    ∧ ((containsChar "ab".data ' ' || containsChar "ab".data '\x22'
        || containsChar "ab".data '\x27') = false
      ∧ escapeRedis (.str "ab".data) = "ab".data) :=
  ⟨⟨by decide, redis_string_escaping.1 "a b".data (by decide)⟩,
   ⟨by decide, redis_string_escaping.2.1 "ab".data (by decide)⟩⟩

/-- Claim C10: `Model::port` returns 8080 when the server section is
absent, when `server.port` is absent, and when `server.port` fails to
parse as a `u16` (the bad value is silently ignored); otherwise it
returns the parsed value. -/
theorem model_port_defaulting :
    ∀ m : Model,
      (m.server = none → m.port = 8080)
      ∧ (∀ sc, m.server = some sc → sc.port = none → m.port = 8080)
      ∧ (∀ sc p, m.server = some sc → sc.port = some p → parseU16 p = none →
          m.port = 8080)
      ∧ (∀ sc p v, m.server = some sc → sc.port = some p → parseU16 p = some v →
          m.port = v) := by
  intro m
  refine ⟨?_, ?_, ?_, ?_⟩
  · intro h; simp [Model.port, h]
  · intro sc h hp; simp [Model.port, h, hp]
  · intro sc p h hp hu; simp [Model.port, h, hp, hu]
  · intro sc p v h hp hu; simp [Model.port, h, hp, hu]

/-- Witness for claim C10: an out-of-range port string (`99999`) is
silently ignored and the default 8080 is served. -/
theorem model_port_defaulting_witness :
    (Model.mk "w".data [] [] (some ⟨some "99999".data, none⟩)).server
        = some ⟨some "99999".data, none⟩
    ∧ parseU16 "99999".data = none
    ∧ (Model.mk "w".data [] [] (some ⟨some "99999".data, none⟩)).port = 8080 :=
  ⟨rfl, by decide,
    (model_port_defaulting _).2.2.1 ⟨some "99999".data, none⟩ "99999".data rfl rfl
      (by decide)⟩

/-- Claim C5: QueryNotFound and AdapterNotFound map to HTTP 404,
MissingInput and InvalidInputType to 400; backend errors map to 500
with the message replaced by `Database connection error`, while
not-found and validation errors retain the offending identifier; the
`list` query called with a string `limit` yields 400 with the exact
error envelope. -/
theorem http_error_mapping :
    (∀ n, (HError.queryNotFound n).statusCode = 404)
    ∧ (∀ n, (HError.adapterNotFound n).statusCode = 404)
    ∧ (∀ n, (HError.missingInput n).statusCode = 400)
    ∧ (∀ n t, (HError.invalidInputType n t).statusCode = 400)
    ∧ (∀ m, (HError.database m).statusCode = 500
        ∧ (HError.database m).sanitizedMessage = "Database connection error".data)
    ∧ (∀ m, (HError.redis m).statusCode = 500
        ∧ (HError.redis m).sanitizedMessage = "Database connection error".data)
    ∧ (∀ m, (HError.mongoDb m).statusCode = 500
        ∧ (HError.mongoDb m).sanitizedMessage = "Database connection error".data)
    ∧ (∀ m, (HError.connector m).statusCode = 500
        ∧ (HError.connector m).sanitizedMessage = "Database connection error".data)
    ∧ (∀ n, (HError.queryNotFound n).sanitizedMessage = "Query not found: ".data ++ n)
    ∧ (∀ n, (HError.adapterNotFound n).sanitizedMessage = "Adapter not found: ".data ++ n)
    ∧ (∀ n, (HError.missingInput n).sanitizedMessage
        = "Missing required input: ".data ++ n)
    ∧ (∀ n t, (HError.invalidInputType n t).sanitizedMessage
        = "Invalid input type for \x27".data ++ n ++ "\x27: expected ".data ++ t)
    ∧ queryHandlerRespond
        (executorExecute (fun _ => none) (fun _ => false) (fun _ => false) (fun _ => false)
          listModel (fun _ => none) "list".data
          [("limit".data, .str "fifty".data)])
      = (400, ⟨false, "Invalid input type for \x27limit\x27: expected int".data, []⟩) := by
  refine ⟨fun n => rfl, fun n => rfl, fun n => rfl, fun n t => rfl,
    fun m => ⟨rfl, rfl⟩, fun m => ⟨rfl, rfl⟩, fun m => ⟨rfl, rfl⟩, fun m => ⟨rfl, rfl⟩,
    fun n => rfl, fun n => rfl, fun n => rfl, fun n t => rfl, by decide⟩

/-- Claim C6: whenever a `tools/call` execution fails, the handler
returns a JSON-RPC success envelope (result present, error absent)
whose result holds `isError: true` and a content array whose first
element is of type `text` with a text of `Error: ` followed by the
sanitized message. -/
theorem mcp_tool_call_error_envelope :
    ∀ (exec : Str → InputMap → Except HError (List Row)) (pretty : List Row → Str)
      (id params : Json) (toolName : Str) (e : HError),
      (params.getField "name".data).bind Json.asStr = some toolName →
      exec toolName (mcpArguments params) = .error e →
      (handleToolsCall exec pretty id params).error = none
      ∧ (handleToolsCall exec pretty id params).result
          = some (.obj [
              ("content".data, .arr [.obj [("type".data, .str "text".data),
                ("text".data, .str ("Error: ".data ++ e.sanitizedMessage))]]),
              ("isError".data, .bool true)]) := by
  intro exec pretty id params toolName e hname hexec
  constructor
  · simp [handleToolsCall, hname, hexec, McpResponse.ok]
  · simp [handleToolsCall, hname, hexec, McpResponse.ok]

/-- Witness for claim C6: calling the unknown tool `nope` over the
empty model produces the MCP error envelope for `QueryNotFound`. -/
theorem mcp_tool_call_error_envelope_witness :
    ((unknownToolParams.getField "name".data).bind Json.asStr = some "nope".data)
    ∧ execDemo "nope".data (mcpArguments unknownToolParams)
        = .error (.queryNotFound "nope".data)
    ∧ (handleToolsCall execDemo (fun _ => []) (.num (.int 1)) unknownToolParams).error
        = none
    ∧ (handleToolsCall execDemo (fun _ => []) (.num (.int 1)) unknownToolParams).result
        = some (.obj [
            ("content".data, .arr [.obj [("type".data, .str "text".data),
              ("text".data, .str ("Error: ".data
                ++ (HError.queryNotFound "nope".data).sanitizedMessage))]]),
            ("isError".data, .bool true)]) :=
  ⟨by decide, by decide,
    (mcp_tool_call_error_envelope execDemo (fun _ => []) (.num (.int 1))
      unknownToolParams "nope".data (.queryNotFound "nope".data)
      (by decide) (by decide)).1,
    (mcp_tool_call_error_envelope execDemo (fun _ => []) (.num (.int 1))
      unknownToolParams "nope".data (.queryNotFound "nope".data)
      (by decide) (by decide)).2⟩

/-- Inserting a key makes it present. -/
theorem connFind_insert_self (k : Str) (v : ConnExec) :
    ∀ m : ConnMap, connFind (connInsert m k v) k = some v := by
  intro m
  induction m with
  | nil => simp only [connInsert, connFind, beq_self_eq_true, if_true]
  | cons kv rest ih =>
    obtain ⟨k0, w⟩ := kv
    by_cases h : (k0 == k) = true
    · simp only [connInsert, connFind, h, if_true]
    · simp only [connInsert, connFind, h, if_false, Bool.false_eq_true, ih]

/-- Inserting one key leaves the lookups of other keys unchanged. -/
theorem connFind_insert_ne (k : Str) (v : ConnExec) (k' : Str) (hne : k' ≠ k) :
    ∀ m : ConnMap, connFind (connInsert m k v) k' = connFind m k' := by
  have hkk : (k == k') = false := by
    rw [beq_eq_false_iff_ne]
    intro h
    exact hne h.symm
  intro m
  induction m with
  | nil => simp only [connInsert, connFind, hkk, Bool.false_eq_true, if_false]
  | cons kv rest ih =>
    obtain ⟨k0, w⟩ := kv
    by_cases h : (k0 == k) = true
    · have hk0 : k0 = k := by simpa using h
      have h2 : (k0 == k') = false := by rw [hk0]; exact hkk
      simp only [connInsert, connFind, h, if_true, h2, Bool.false_eq_true, if_false]
    · by_cases h2 : (k0 == k') = true
      · simp only [connInsert, connFind, h, Bool.false_eq_true, if_false, h2, if_true]
      · simp only [connInsert, connFind, h, h2, Bool.false_eq_true, if_false, ih]

/-- Keys present before a `ConnectorManager::initialize` collection
loop stay present after it (their bindings may be overwritten). -/
theorem initializeGo_find_mono (create : Adapter → Except HError ConnExec) :
    ∀ (ds : List Adapter) (m : ConnMap) (k : Str) (c : ConnExec),
      connFind m k = some c →
      ∃ c', connFind (initializeGo create ds m).1 k = some c' := by
  intro ds
  induction ds with
  | nil => intro m k c h; exact ⟨c, h⟩
  | cons a rest ih =>
    intro m k c h
    cases hc : create a with
    | error e =>
      refine ⟨c, ?_⟩
      simp only [initializeGo, hc]
      exact h
    | ok ca =>
      by_cases hk : k = a.name
      · have hself := connFind_insert_self a.name ca m
        have := ih (connInsert m a.name ca) a.name ca hself
        rw [hk]
        simpa only [initializeGo, hc] using this
      · have hpres : connFind (connInsert m a.name ca) k = some c := by
          rw [connFind_insert_ne a.name ca k hk m]
          exact h
        have := ih (connInsert m a.name ca) k c hpres
        simpa only [initializeGo, hc] using this

/-- The collection loop of `initialize` on an adapter list whose prefix
constructs fine and whose next adapter fails: the failure is returned,
every prefix adapter stays registered, and the failed adapter is not
registered (granted its name is fresh). -/
theorem initializeGo_error_path (create : Adapter → Except HError ConnExec) :
    ∀ (pre : List Adapter) (bad : Adapter) (rest : List Adapter) (m0 : ConnMap)
      (e : HError),
      (∀ a ∈ pre, ∃ c, create a = .ok c) → create bad = .error e →
      (initializeGo create (pre ++ bad :: rest) m0).2 = some e
      ∧ (∀ a ∈ pre, ∃ c,
          connFind (initializeGo create (pre ++ bad :: rest) m0).1 a.name = some c)
      ∧ (connFind m0 bad.name = none →
          bad.name ∉ pre.map (fun a => a.name) →
          connFind (initializeGo create (pre ++ bad :: rest) m0).1 bad.name = none) := by
  intro pre
  induction pre with
  | nil =>
    intro bad rest m0 e _ hbad
    refine ⟨?_, by intro a ha; exact absurd ha (List.not_mem_nil a), ?_⟩
    · simp only [List.nil_append, initializeGo, hbad]
    · intro h0 _
      simp only [List.nil_append, initializeGo, hbad]
      exact h0
  | cons a pre' ih =>
    intro bad rest m0 e hpre hbad
    obtain ⟨ca, hca⟩ := hpre a (List.mem_cons_self a pre')
    have hpre' : ∀ a' ∈ pre', ∃ c, create a' = .ok c := fun a' ha' =>
      hpre a' (List.mem_cons_of_mem a ha')
    have ihm := ih bad rest (connInsert m0 a.name ca) e hpre' hbad
    refine ⟨?_, ?_, ?_⟩
    · have := ihm.1
      simpa only [List.cons_append, initializeGo, hca] using this
    · intro a' ha'
      rcases List.mem_cons.mp ha' with h | h
      · subst h
        have hself := connFind_insert_self a'.name ca m0
        have := initializeGo_find_mono create (pre' ++ bad :: rest)
          (connInsert m0 a'.name ca) a'.name ca hself
        simpa only [List.cons_append, initializeGo, hca] using this
      · have := ihm.2.1 a' h
        simpa only [List.cons_append, initializeGo, hca] using this
    · intro h0 hnin
      have hne : bad.name ≠ a.name := by
        intro hh
        exact hnin (by simp [hh])
      have hnin' : bad.name ∉ pre'.map (fun x => x.name) := by
        intro hh
        exact hnin (by simp [hh])
      have h0' : connFind (connInsert m0 a.name ca) bad.name = none := by
        rw [connFind_insert_ne a.name ca bad.name hne m0]
        exact h0
      have := ihm.2.2 h0' hnin'
      simpa only [List.cons_append, initializeGo, hca] using this

/-- Claim C7, evaluated on the code: with the construction of `good`
succeeding and that of `bad` failing, `initialize` returns the failure,
yet `get("good")` afterwards succeeds — the partial success is retained
in the map, not discarded. -/
theorem manager_initialize_retains_partial :
    (managerInitialize createDemo [goodAdapter, badAdapter] []).2
        = some (.connector "boom".data)
    ∧ managerGet (managerInitialize createDemo [goodAdapter, badAdapter] []).1
        "good".data = .ok okExec :=
  ⟨rfl, rfl⟩

/-- Claim C7 as amended: when a construction fails, `initialize`
returns the failure; adapters collected before the failure remain
registered and `get` on them succeeds, while `get` on the failed
adapter (name fresh to the map) yields `AdapterNotFound`. -/
theorem manager_initialize_error_path :
    ∀ (create : Adapter → Except HError ConnExec) (pre : List Adapter)
      (bad : Adapter) (rest : List Adapter) (m0 : ConnMap) (e : HError),
      (∀ a ∈ pre, ∃ c, create a = .ok c) → create bad = .error e →
      (managerInitialize create (pre ++ bad :: rest) m0).2 = some e
      ∧ (∀ a ∈ pre, ∃ c,
          managerGet (managerInitialize create (pre ++ bad :: rest) m0).1 a.name
            = .ok c)
      ∧ (connFind m0 bad.name = none →
          bad.name ∉ pre.map (fun a => a.name) →
          managerGet (managerInitialize create (pre ++ bad :: rest) m0).1 bad.name
            = .error (.adapterNotFound bad.name)) := by
  intro create pre bad rest m0 e hpre hbad
  obtain ⟨h1, h2, h3⟩ := initializeGo_error_path create pre bad rest m0 e hpre hbad
  refine ⟨h1, ?_, ?_⟩
  · intro a ha
    obtain ⟨c, hc⟩ := h2 a ha
    refine ⟨c, ?_⟩
    simp only [managerGet, managerInitialize] at hc ⊢
    rw [hc]
  · intro h0 hnin
    have hn := h3 h0 hnin
    simp only [managerGet, managerInitialize] at hn ⊢
    rw [hn]

/-- Witness for the amended claim C7 at the two-adapter instance. -/
theorem manager_initialize_error_path_witness :
    (managerInitialize createDemo ([goodAdapter] ++ badAdapter :: []) []).2
        = some (.connector "boom".data)
    ∧ (∃ c, managerGet
        (managerInitialize createDemo ([goodAdapter] ++ badAdapter :: []) []).1
        goodAdapter.name = .ok c)
    ∧ managerGet
        (managerInitialize createDemo ([goodAdapter] ++ badAdapter :: []) []).1
        badAdapter.name = .error (.adapterNotFound badAdapter.name) := by
  have h := manager_initialize_error_path createDemo [goodAdapter] badAdapter [] []
    (.connector "boom".data)
    (by
      intro a ha
      simp only [List.mem_singleton] at ha
      subst ha
      exact ⟨okExec, rfl⟩)
    rfl
  exact ⟨h.1, h.2.1 goodAdapter (List.mem_singleton.mpr rfl),
    h.2.2 rfl (by decide)⟩

/-- Claim C3, evaluated on the code: the native command document
`{"database":"shop","find":"orders","filter":{"status":"paid"}}` is
rejected by the statement parser (no `collection`/`operation` fields),
so it is never dispatched. -/
theorem mongo_native_command_rejected :
    parseMongoStatement nativeFindDoc = .error "missing field collection".data := by
  decide

/-- Claim C3 as amended: the statement is parsed as a structured
`MongoStatement` with required `collection` and `operation` fields and
an optional `database` field; the statement-level database (when
present) selects the target, else the connection default, and neither
present is an error; a `find` yields one result row per document the
driver returns. -/
theorem mongo_structured_statement :
    parseMongoStatement structuredFindDoc
        = .ok ⟨some "shop".data, "orders".data, "find".data,
            some (.obj [("status".data, .str "paid".data)])⟩
    ∧ (∀ (dflt : Option Str) (n : Str), getDatabase dflt (some n) = .ok n)
    ∧ (∀ d : Str, getDatabase (some d) none = .ok d)
    ∧ getDatabase none none = .error (.mongoDb
        "No database specified and no default database in connection string".data)
    ∧ (∀ (B : Type) (b2j : B → Json) (docs : List (List (Str × B))),
        (mongoFindRows b2j docs).length = docs.length
        ∧ ∀ (i : Nat) (hd : i < docs.length) (hr : i < (mongoFindRows b2j docs).length),
            (mongoFindRows b2j docs).get ⟨i, hr⟩
              = documentToMap b2j (docs.get ⟨i, hd⟩)) := by
  refine ⟨by decide, fun dflt n => rfl, fun d => rfl, rfl, ?_⟩
  intro B b2j docs
  constructor
  · simp [mongoFindRows]
  · intro i hd hr
    simp [mongoFindRows, List.get_eq_getElem, List.getElem_map]

/-- Witness for the amended claim C3: two driver documents become
exactly two rows, the first row being the converted first document. -/
theorem mongo_structured_statement_witness :
    (mongoFindRows (fun _ : Unit => Json.null) [[("a".data, ())], []]).length
        = ([[("a".data, ())], []] : List (List (Str × Unit))).length
    ∧ (mongoFindRows (fun _ : Unit => Json.null) [[("a".data, ())], []]).get
        ⟨0, by decide⟩
      = documentToMap (fun _ : Unit => Json.null)
          (([[("a".data, ())], []] : List (List (Str × Unit))).get ⟨0, by decide⟩) :=
  ⟨(mongo_structured_statement.2.2.2.2 Unit (fun _ => Json.null)
      [[("a".data, ())], []]).1,
   (mongo_structured_statement.2.2.2.2 Unit (fun _ => Json.null)
      [[("a".data, ())], []]).2 0 (by decide) (by decide)⟩

/-- In strict mode the error accumulator of `EnvSubstitutor::substitute`
collects exactly the names of the missing-variable matches, in order. -/
theorem envSubst_foldl_errors_strict (env : Str → Option Str) :
    ∀ (ms : List (Str × Str)) (c : Str) (errs : List Str),
      (ms.foldl (envSubstStep env true) (c, errs)).2
        = errs ++ (ms.filter (fun m => (env m.2).isNone)).map (fun m => m.2) := by
  intro ms
  induction ms with
  | nil => intro c errs; simp
  | cons m ms' ih =>
    intro c errs
    cases hm : env m.2 with
    | some v =>
      simp [List.foldl_cons, envSubstStep, hm, List.filter_cons, ih]
    | none =>
      simp [List.foldl_cons, envSubstStep, hm, List.filter_cons, ih]

/-- In lenient mode the error accumulator never grows. -/
theorem envSubst_foldl_errors_lenient (env : Str → Option Str) :
    ∀ (ms : List (Str × Str)) (c : Str) (errs : List Str),
      (ms.foldl (envSubstStep env false) (c, errs)).2 = errs := by
  intro ms
  induction ms with
  | nil => intro c errs; rfl
  | cons m ms' ih =>
    intro c errs
    cases hm : env m.2 with
    | some v => simp [List.foldl_cons, envSubstStep, hm, ih]
    | none => simp [List.foldl_cons, envSubstStep, hm, ih]

/-- The substituted content produced by the fold does not depend on the
strictness flag or on the error accumulator. -/
theorem envSubst_foldl_content (env : Str → Option Str) :
    ∀ (ms : List (Str × Str)) (c : Str) (s1 s2 : Bool) (e1 e2 : List Str),
      (ms.foldl (envSubstStep env s1) (c, e1)).1
        = (ms.foldl (envSubstStep env s2) (c, e2)).1 := by
  intro ms
  induction ms with
  | nil => intro c s1 s2 e1 e2; rfl
  | cons m ms' ih =>
    intro c s1 s2 e1 e2
    cases hm : env m.2 with
    | some v =>
      simp only [List.foldl_cons, envSubstStep, hm]
      exact ih (replaceAll m.1 v c) s1 s2 e1 e2
    | none =>
      simp only [List.foldl_cons, envSubstStep, hm]
      exact ih c s1 s2 _ _

/-- Claim C9, evaluated on the code: a document with two occurrences of
the missing variable `A` fails with the joined payload `A, A`, not with
`EnvVarNotFound(A)`. -/
theorem env_substitute_joined_names :
    envSubstitute (fun _ => none) true
        "\x7b\x7b env.A \x7d\x7d \x7b\x7b env.A \x7d\x7d".data
      = .error (.envVarNotFound "A, A".data)
    ∧ envSubstitute (fun _ => none) true
        "\x7b\x7b env.A \x7d\x7d \x7b\x7b env.A \x7d\x7d".data
      ≠ .error (.envVarNotFound "A".data) := by
  exact ⟨by decide, by decide⟩

/-- Claim C9 as amended: lenient substitution always succeeds (missing
placeholders stay in place); strict substitution agrees with lenient
when no matched variable is missing, and otherwise fails with
`EnvVarNotFound` carrying the comma-joined names of the
missing-variable occurrences; a defined variable is replaced at every
occurrence. -/
theorem env_substitution_modes :
    ∀ (env : Str → Option Str) (content : Str),
      (∃ r, envSubstitute env false content = .ok r)
      ∧ (envMissing env content = [] →
          envSubstitute env true content = envSubstitute env false content)
      ∧ (envMissing env content ≠ [] →
          envSubstitute env true content
            = .error (.envVarNotFound (joinSep ", ".data (envMissing env content))))
      ∧ envSubstitute (fun n => if n = "A".data then some "1".data else none) true
          "x=\x7b\x7b env.A \x7d\x7d, y=\x7b\x7b env.A \x7d\x7d".data
        = .ok "x=1, y=1".data
      ∧ envSubstitute (fun _ => none) false "\x7b\x7b env.A \x7d\x7d".data
        = .ok "\x7b\x7b env.A \x7d\x7d".data := by
  intro env content
  have hlen := envSubst_foldl_errors_lenient env (scanPh envTag content) content []
  have hstr := envSubst_foldl_errors_strict env (scanPh envTag content) content []
  have hcont := envSubst_foldl_content env (scanPh envTag content) content true false
    ([] : List Str) ([] : List Str)
  have hmiss : ((scanPh envTag content).filter
      (fun m => (env m.2).isNone)).map (fun m => m.2) = envMissing env content := rfl
  refine ⟨?_, ?_, ?_, by decide, by decide⟩
  · refine ⟨((scanPh envTag content).foldl (envSubstStep env false) (content, [])).1, ?_⟩
    simp [envSubstitute, hlen]
  · intro hempty
    rw [hmiss] at hstr
    simp [envSubstitute, hlen, hstr, hempty, hcont]
  · intro hne
    rw [hmiss] at hstr
    have : ((scanPh envTag content).foldl (envSubstStep env true) (content, [])).2
        = envMissing env content := by simpa using hstr
    simp [envSubstitute, this, hne]

/-- Witness for the amended claim C9: one missing occurrence of `A`
fails strictly with payload `A` and succeeds leniently; with every
variable defined, strict and lenient agree. -/
theorem env_substitution_modes_witness :
    (∃ r, envSubstitute (fun _ => none) false "\x7b\x7b env.A \x7d\x7d".data = .ok r)
    ∧ envSubstitute (fun _ => none) true "\x7b\x7b env.A \x7d\x7d".data
        = .error (.envVarNotFound (joinSep ", ".data
            (envMissing (fun _ => none) "\x7b\x7b env.A \x7d\x7d".data)))
    ∧ envSubstitute (fun _ => some "v".data) true "\x7b\x7b env.A \x7d\x7d".data
        = envSubstitute (fun _ => some "v".data) false "\x7b\x7b env.A \x7d\x7d".data :=
  ⟨(env_substitution_modes (fun _ => none) "\x7b\x7b env.A \x7d\x7d".data).1,
   (env_substitution_modes (fun _ => none) "\x7b\x7b env.A \x7d\x7d".data).2.2.1
     (by decide),
   (env_substitution_modes (fun _ => some "v".data) "\x7b\x7b env.A \x7d\x7d".data).2.1
     (by decide)⟩

/-- Inserting a key into an input map makes it present. -/
theorem lookupMap_insert_self (k : Str) (v : Json) :
    ∀ m : InputMap, lookupMap (insertMap m k v) k = some v := by
  intro m
  induction m with
  | nil => simp only [insertMap, lookupMap, beq_self_eq_true, if_true]
  | cons kv rest ih =>
    obtain ⟨k0, w⟩ := kv
    by_cases h : (k0 == k) = true
    · simp only [insertMap, lookupMap, h, if_true]
    · simp only [insertMap, lookupMap, h, if_false, Bool.false_eq_true, ih]

/-- Inserting one key leaves input-map lookups of other keys
unchanged. -/
theorem lookupMap_insert_ne (k : Str) (v : Json) (k' : Str) (hne : k' ≠ k) :
    ∀ m : InputMap, lookupMap (insertMap m k v) k' = lookupMap m k' := by
  have hkk : (k == k') = false := by
    rw [beq_eq_false_iff_ne]
    intro h
    exact hne h.symm
  intro m
  induction m with
  | nil => simp only [insertMap, lookupMap, hkk, Bool.false_eq_true, if_false]
  | cons kv rest ih =>
    obtain ⟨k0, w⟩ := kv
    by_cases h : (k0 == k) = true
    · have hk0 : k0 = k := by simpa using h
      have h2 : (k0 == k') = false := by rw [hk0]; exact hkk
      simp only [insertMap, lookupMap, h, if_true, h2, Bool.false_eq_true, if_false]
    · by_cases h2 : (k0 == k') = true
      · simp only [insertMap, lookupMap, h, Bool.false_eq_true, if_false, h2, if_true]
      · simp only [insertMap, lookupMap, h, h2, Bool.false_eq_true, if_false, ih]

/-- A `MissingInput(name)` outcome of the validator loop names a
declared input that is required and absent from the map. -/
theorem validateGo_missing (u r n : Str → Bool) :
    ∀ (ds : List Input) (acc : InputMap) (name : Str),
      validateGo u r n ds acc = .error (.missingInput name) →
      ∃ d ∈ ds, d.name = name ∧ d.required = true ∧ lookupMap acc d.name = none := by
  intro ds
  induction ds with
  | nil =>
    intro acc name h
    simp [validateGo] at h
  | cons d rest ih =>
    intro acc name h
    cases hl : lookupMap acc d.name with
    | some v =>
      cases hval : d.primitiveType.validate u r n v with
      | true =>
        simp only [validateGo, hl, hval, if_true] at h
        obtain ⟨d', hmem, hp⟩ := ih acc name h
        exact ⟨d', List.mem_cons_of_mem d hmem, hp⟩
      | false =>
        simp only [validateGo, hl, hval, Bool.false_eq_true, if_false] at h
        cases h
    | none =>
      cases hreq : d.required with
      | true =>
        simp only [validateGo, hl, hreq, if_true] at h
        injection h with h
        injection h with h
        exact ⟨d, List.mem_cons_self d rest, h, hreq, hl⟩
      | false =>
        cases hdef : d.default with
        | some dv =>
          simp only [validateGo, hl, hreq, Bool.false_eq_true, if_false, hdef] at h
          obtain ⟨d', hmem, hname, hr, hlook⟩ := ih _ name h
          have hne : d'.name ≠ d.name := by
            intro hh
            rw [hh, lookupMap_insert_self] at hlook
            cases hlook
          rw [lookupMap_insert_ne d.name dv d'.name hne] at hlook
          exact ⟨d', List.mem_cons_of_mem d hmem, hname, hr, hlook⟩
        | none =>
          simp only [validateGo, hl, hreq, Bool.false_eq_true, if_false, hdef] at h
          obtain ⟨d', hmem, hp⟩ := ih acc name h
          exact ⟨d', List.mem_cons_of_mem d hmem, hp⟩

/-- An `InvalidInputType(name, t)` outcome of the validator loop (over
declarations with distinct names) names a declared input whose supplied
value fails its primitive check, with `t` the declared type's
rendering. -/
theorem validateGo_invalid (u r n : Str → Bool) :
    ∀ (ds : List Input) (acc : InputMap) (name t : Str),
      (ds.map (fun d => d.name)).Nodup →
      validateGo u r n ds acc = .error (.invalidInputType name t) →
      ∃ d ∈ ds, d.name = name ∧ t = d.primitiveType.display
        ∧ ∃ v, lookupMap acc d.name = some v
          ∧ d.primitiveType.validate u r n v = false := by
  intro ds
  induction ds with
  | nil =>
    intro acc name t _ h
    simp [validateGo] at h
  | cons d rest ih =>
    intro acc name t hnd h
    have hnd2 : d.name ∉ rest.map (fun x => x.name) ∧ (rest.map (fun x => x.name)).Nodup := by
      simpa [List.nodup_cons] using hnd
    cases hl : lookupMap acc d.name with
    | some v =>
      cases hval : d.primitiveType.validate u r n v with
      | true =>
        simp only [validateGo, hl, hval, if_true] at h
        obtain ⟨d', hmem, hp⟩ := ih acc name t hnd2.2 h
        exact ⟨d', List.mem_cons_of_mem d hmem, hp⟩
      | false =>
        simp only [validateGo, hl, hval, Bool.false_eq_true, if_false] at h
        injection h with h
        injection h with h1 h2
        exact ⟨d, List.mem_cons_self d rest, h1, h2.symm, v, hl, hval⟩
    | none =>
      cases hreq : d.required with
      | true =>
        simp only [validateGo, hl, hreq, if_true] at h
        cases h
      | false =>
        cases hdef : d.default with
        | some dv =>
          simp only [validateGo, hl, hreq, Bool.false_eq_true, if_false, hdef] at h
          obtain ⟨d', hmem, hname, ht, v, hlook, hval⟩ := ih _ name t hnd2.2 h
          have hne : d'.name ≠ d.name := by
            intro hh
            exact hnd2.1 (hh ▸ List.mem_map_of_mem (fun x => x.name) hmem)
          rw [lookupMap_insert_ne d.name dv d'.name hne] at hlook
          exact ⟨d', List.mem_cons_of_mem d hmem, hname, ht, v, hlook, hval⟩
        | none =>
          simp only [validateGo, hl, hreq, Bool.false_eq_true, if_false, hdef] at h
          obtain ⟨d', hmem, hp⟩ := ih acc name t hnd2.2 h
          exact ⟨d', List.mem_cons_of_mem d hmem, hp⟩

/-- A successful validator loop (over declarations with distinct names)
preserves every caller-supplied binding, certifies every supplied value
against its declared primitive, and for each absent declaration shows
it optional with its default (when declared) present in the output. -/
theorem validateGo_ok_spec (u r n : Str → Bool) :
    ∀ (ds : List Input) (acc out : InputMap),
      (ds.map (fun d => d.name)).Nodup →
      validateGo u r n ds acc = .ok out →
      (∀ k v, lookupMap acc k = some v → lookupMap out k = some v)
      ∧ (∀ d ∈ ds, ∀ v, lookupMap acc d.name = some v →
          d.primitiveType.validate u r n v = true)
      ∧ (∀ d ∈ ds, lookupMap acc d.name = none →
          d.required = false
          ∧ (∀ dv, d.default = some dv → lookupMap out d.name = some dv)) := by
  intro ds
  induction ds with
  | nil =>
    intro acc out _ h
    simp only [validateGo] at h
    injection h with h
    subst h
    refine ⟨fun k v hv => hv, ?_, ?_⟩
    · intro d hd
      exact absurd hd (List.not_mem_nil d)
    · intro d hd
      exact absurd hd (List.not_mem_nil d)
  | cons d rest ih =>
    intro acc out hnd h
    have hnd2 : d.name ∉ rest.map (fun x => x.name) ∧ (rest.map (fun x => x.name)).Nodup := by
      simpa [List.nodup_cons] using hnd
    have hne_of_mem : ∀ d' ∈ rest, d'.name ≠ d.name := by
      intro d' hmem hh
      exact hnd2.1 (hh ▸ List.mem_map_of_mem (fun x => x.name) hmem)
    cases hl : lookupMap acc d.name with
    | some v =>
      cases hval : d.primitiveType.validate u r n v with
      | true =>
        simp only [validateGo, hl, hval, if_true] at h
        obtain ⟨p1, p2, p3⟩ := ih acc out hnd2.2 h
        refine ⟨p1, ?_, ?_⟩
        · intro d' hd' v' hv'
          rcases List.mem_cons.mp hd' with hh | hh
          · subst hh
            rw [hl] at hv'
            injection hv' with hv'
            rw [← hv']
            exact hval
          · exact p2 d' hh v' hv'
        · intro d' hd' hnone
          rcases List.mem_cons.mp hd' with hh | hh
          · subst hh
            rw [hl] at hnone
            cases hnone
          · exact p3 d' hh hnone
      | false =>
        simp only [validateGo, hl, hval, Bool.false_eq_true, if_false] at h
        cases h
    | none =>
      cases hreq : d.required with
      | true =>
        simp only [validateGo, hl, hreq, if_true] at h
        cases h
      | false =>
        cases hdef : d.default with
        | some dv =>
          simp only [validateGo, hl, hreq, Bool.false_eq_true, if_false, hdef] at h
          obtain ⟨p1, p2, p3⟩ := ih _ out hnd2.2 h
          refine ⟨?_, ?_, ?_⟩
          · intro k v hv
            have hkne : k ≠ d.name := by
              intro hh
              rw [hh, hl] at hv
              cases hv
            have : lookupMap (insertMap acc d.name dv) k = some v := by
              rw [lookupMap_insert_ne d.name dv k hkne]
              exact hv
            exact p1 k v this
          · intro d' hd' v' hv'
            rcases List.mem_cons.mp hd' with hh | hh
            · subst hh
              rw [hl] at hv'
              cases hv'
            · have hne := hne_of_mem d' hh
              have : lookupMap (insertMap acc d.name dv) d'.name = some v' := by
                rw [lookupMap_insert_ne d.name dv d'.name hne]
                exact hv'
              exact p2 d' hh v' this
          · intro d' hd' hnone
            rcases List.mem_cons.mp hd' with hh | hh
            · subst hh
              refine ⟨hreq, ?_⟩
              intro dv' hdv'
              rw [hdef] at hdv'
              injection hdv' with heq
              rw [← heq]
              exact p1 d'.name dv (lookupMap_insert_self d'.name dv acc)
            · have hne := hne_of_mem d' hh
              have : lookupMap (insertMap acc d.name dv) d'.name = none := by
                rw [lookupMap_insert_ne d.name dv d'.name hne]
                exact hnone
              exact p3 d' hh this
        | none =>
          simp only [validateGo, hl, hreq, Bool.false_eq_true, if_false, hdef] at h
          obtain ⟨p1, p2, p3⟩ := ih acc out hnd2.2 h
          refine ⟨p1, ?_, ?_⟩
          · intro d' hd' v' hv'
            rcases List.mem_cons.mp hd' with hh | hh
            · subst hh
              rw [hl] at hv'
              cases hv'
            · exact p2 d' hh v' hv'
          · intro d' hd' hnone
            rcases List.mem_cons.mp hd' with hh | hh
            · subst hh
              refine ⟨hreq, ?_⟩
              intro dv' hdv'
              rw [hdef] at hdv'
              cases hdv'
            · exact p3 d' hh hnone

/-- Claim C4: supplied inputs are checked against the declared
primitive (string iff JSON string, int iff non-float JSON number,
float iff any JSON number, boolean iff JSON boolean, uuid / datetime
iff strings the external parsers accept) with mismatches surfacing as
`InvalidInputType`; an absent required input surfaces as
`MissingInput(name)`; an absent optional input has its declared default
inserted into the returned map. -/
theorem input_validation_spec :
    ∀ (uuidOk rfcOk naiveOk : Str → Bool) (q : Query) (inputs : InputMap),
      (q.inputs.map (fun d => d.name)).Nodup →
      ((∀ v, Primitive.validate uuidOk rfcOk naiveOk .string v = true ↔ ∃ s, v = .str s)
        ∧ (∀ v, Primitive.validate uuidOk rfcOk naiveOk .int v = true
            ↔ ∃ i, v = .num (.int i))
        ∧ (∀ v, Primitive.validate uuidOk rfcOk naiveOk .float v = true
            ↔ ∃ nn, v = .num nn)
        ∧ (∀ v, Primitive.validate uuidOk rfcOk naiveOk .boolean v = true
            ↔ ∃ b, v = .bool b)
        ∧ (∀ v, Primitive.validate uuidOk rfcOk naiveOk .uuid v = true
            ↔ ∃ s, v = .str s ∧ uuidOk s = true)
        ∧ (∀ v, Primitive.validate uuidOk rfcOk naiveOk .datetime v = true
            ↔ ∃ s, v = .str s ∧ (rfcOk s || naiveOk s) = true))
      ∧ (∀ out, validateInputs uuidOk rfcOk naiveOk q inputs = .ok out →
          (∀ k v, lookupMap inputs k = some v → lookupMap out k = some v)
          ∧ (∀ d ∈ q.inputs, ∀ v, lookupMap inputs d.name = some v →
              d.primitiveType.validate uuidOk rfcOk naiveOk v = true)
          ∧ (∀ d ∈ q.inputs, lookupMap inputs d.name = none →
              d.required = false
              ∧ (∀ dv, d.default = some dv → lookupMap out d.name = some dv)))
      ∧ (∀ name, validateInputs uuidOk rfcOk naiveOk q inputs
            = .error (.missingInput name) →
          ∃ d ∈ q.inputs, d.name = name ∧ d.required = true
            ∧ lookupMap inputs d.name = none)
      ∧ (∀ name t, validateInputs uuidOk rfcOk naiveOk q inputs
            = .error (.invalidInputType name t) →
          ∃ d ∈ q.inputs, d.name = name ∧ t = d.primitiveType.display
            ∧ ∃ v, lookupMap inputs d.name = some v
              ∧ d.primitiveType.validate uuidOk rfcOk naiveOk v = false)
      ∧ ((∃ d ∈ q.inputs,
            (lookupMap inputs d.name = none ∧ d.required = true)
            ∨ (∃ v, lookupMap inputs d.name = some v
                ∧ d.primitiveType.validate uuidOk rfcOk naiveOk v = false)) →
          ∀ out, validateInputs uuidOk rfcOk naiveOk q inputs ≠ .ok out) := by
  intro uuidOk rfcOk naiveOk q inputs hnd
  refine ⟨⟨?_, ?_, ?_, ?_, ?_, ?_⟩, ?_, ?_, ?_, ?_⟩
  · intro v
    cases v <;> simp [Primitive.validate]
  · intro v
    cases v with
    | num nn => cases nn <;> simp [Primitive.validate]
    | null => simp [Primitive.validate]
    | bool b => simp [Primitive.validate]
    | str s => simp [Primitive.validate]
    | arr xs => simp [Primitive.validate]
    | obj fs => simp [Primitive.validate]
  · intro v
    cases v <;> simp [Primitive.validate]
  · intro v
    cases v <;> simp [Primitive.validate]
  · intro v
    cases v <;> simp [Primitive.validate, Json.asStr]
  · intro v
    cases v <;> simp [Primitive.validate, Json.asStr]
  · intro out h
    exact validateGo_ok_spec uuidOk rfcOk naiveOk q.inputs inputs out hnd h
  · intro name h
    exact validateGo_missing uuidOk rfcOk naiveOk q.inputs inputs name h
  · intro name t h
    exact validateGo_invalid uuidOk rfcOk naiveOk q.inputs inputs name t hnd h
  · rintro ⟨d, hmem, hprob⟩ out hok
    obtain ⟨p1, p2, p3⟩ :=
      validateGo_ok_spec uuidOk rfcOk naiveOk q.inputs inputs out hnd hok
    rcases hprob with ⟨hnone, hreq⟩ | ⟨v, hsome, hbad⟩
    · have := (p3 d hmem hnone).1
      rw [hreq] at this
      cases this
    · have := p2 d hmem v hsome
      rw [hbad] at this
      cases this

/-- Witness for claim C4 on `wQuery`: the absent optional `limit` gets
its default 10 in the returned map, and with empty caller inputs the
required `id` is reported missing. -/
theorem input_validation_spec_witness :
    lookupMap [("id".data, Json.num (.int 42)), ("limit".data, Json.num (.int 10))]
        "limit".data = some (.num (.int 10))
    ∧ (∃ d ∈ wQuery.inputs, d.name = "id".data ∧ d.required = true
        ∧ lookupMap ([] : InputMap) d.name = none) :=
  ⟨(((input_validation_spec (fun _ => false) (fun _ => false) (fun _ => false)
        wQuery wInputs (by decide)).2.1
      [("id".data, Json.num (.int 42)), ("limit".data, Json.num (.int 10))]
      (by decide)).2.2
      ⟨"limit".data, .int, false, some (.num (.int 10))⟩
      (by decide) (by decide)).2 (.num (.int 10)) rfl,
   (input_validation_spec (fun _ => false) (fun _ => false) (fun _ => false)
      wQuery [] (by decide)).2.2.1 "id".data (by decide)⟩

end Hyperterse
